import Mathlib

/-!
Shallow embedding of `src/vitlens/src/open_clip/modal_3d/datasets.py`
(ViT-Lens point-cloud dataset loading and augmentation).

Conventions of the embedding:
* numpy float arrays are modelled as nested lists over an ordered field
  (`ℝ` where the code takes square roots or trigonometric functions,
  `ℚ` where the computation is purely rational so that witnesses can be
  evaluated by `decide`);
* every call to a random generator (`np.random.*`, `random.*`) becomes an
  explicit parameter holding the drawn value(s);
* in-place numpy mutation becomes explicit state passing.
-/

/-- Indexed map starting at index `k` (helper for numpy loops `for i in range(...)`). -/
def listMapIdxAux (f : ℕ → α → β) : ℕ → List α → List β
  | _, [] => []
  | k, x :: xs => f k x :: listMapIdxAux f (k + 1) xs

/-- Indexed map over a list, index starting at 0. -/
def listMapIdx (f : ℕ → α → β) (l : List α) : List β :=
  listMapIdxAux f 0 l

/-- `np.max` of a list of reals (`0` on the empty list, which numpy rejects;
all uses below are guarded by nonemptiness). -/
def listMax : List ℝ → ℝ
  | [] => 0
  | x :: xs => xs.foldl max x

/-- `np.min` of a list of reals (`0` on the empty list). -/
def listMin : List ℝ → ℝ
  | [] => 0
  | x :: xs => xs.foldl min x

/-- `np.mean(pc, axis=0)`: column-wise mean.  numpy requires a rectangular
array; the number of columns is read off the first row. -/
noncomputable def colMean (pc : List (List ℝ)) : List ℝ :=
  (List.range (pc.headD []).length).map
    (fun j => (pc.map (fun r => r.getD j 0)).sum / pc.length)

/-- `pc - centroid` (line `pc = pc - centroid` of `pc_normalize`). -/
noncomputable def centered (pc : List (List ℝ)) : List (List ℝ) :=
  pc.map (fun r => List.zipWith (fun a b => a - b) r (colMean pc))

/-- `np.sum(pc**2, axis=1)` for one row. -/
def rowSqNorm (r : List ℝ) : ℝ :=
  (r.map (fun x => x ^ 2)).sum

/-- `m = np.max(np.sqrt(np.sum(pc**2, axis=1)))` of `pc_normalize`,
computed on the centered cloud. -/
noncomputable def normScale (pc : List (List ℝ)) : ℝ :=
  listMax ((centered pc).map (fun r => Real.sqrt (rowSqNorm r)))

/-- `pc_normalize(pc)` (datasets.py lines 65-70): subtract the centroid,
then divide by the maximum row norm. -/
noncomputable def pc_normalize (pc : List (List ℝ)) : List (List ℝ) :=
  (centered pc).map (fun r => r.map (fun x => x / normScale pc))

namespace Objverse

/-- `Objverse.pc_norm` (datasets.py lines 439-445); its body is the same
centroid-subtract-then-divide-by-max-norm computation as `pc_normalize`. -/
noncomputable def pc_norm (pc : List (List ℝ)) : List (List ℝ) :=
  (centered pc).map (fun r => r.map (fun x => x / normScale pc))

/-- Loop body of `Objverse.find_bucket` (datasets.py lines 447-453): `bid`
is the accumulator; the fall-through of the python `for` returns `None`. -/
def findBucketAux (id : ℕ) : ℕ → List ℕ → Option ℕ
  | _, [] => none
  | bid, s :: rest => if id ≥ s then findBucketAux id (bid + 1) rest else some bid

/-- `Objverse.find_bucket(id, bucket_scale)`. -/
def find_bucket (id : ℕ) (bucket_scale : List ℕ) : Option ℕ :=
  findBucketAux id 0 bucket_scale

end Objverse

namespace ShapeNet

/-- `ShapeNet.pc_norm` (datasets.py lines 649-655); same body again. -/
noncomputable def pc_norm (pc : List (List ℝ)) : List (List ℝ) :=
  (centered pc).map (fun r => r.map (fun x => x / normScale pc))

end ShapeNet

/-- `np.cumsum` of the per-bucket entry counts
(`self.cumulative_bucket_scale = np.cumsum(list(self.data_manual.values()))`). -/
def cumsum : List ℕ → List ℕ
  | [] => []
  | c :: rest => c :: (cumsum rest).map (fun x => c + x)

/-- Squared distance on the first three coordinates:
`np.sum((xyz - centroid) ** 2, -1)` for one row of `xyz`. -/
def sqDist3 {α : Type} [LinearOrderedField α] (p q : List α) : α :=
  (List.zipWith (fun x y => (x - y) ^ 2) p q).sum

/-- `np.argmax` on a list: index of the first occurrence of the maximum.
`i` is the index of the head of the remaining list, `b`/`v` the best index
and value so far. -/
def argmaxAux {α : Type} [LinearOrderedField α] : ℕ → ℕ → α → List α → ℕ
  | _, b, _, [] => b
  | i, b, v, x :: xs =>
    if v < x then argmaxAux (i + 1) i x xs else argmaxAux (i + 1) b v xs

/-- `np.argmax(distance, -1)` (`0` on the empty list, which numpy rejects). -/
def argmaxList {α : Type} [LinearOrderedField α] : List α → ℕ
  | [] => 0
  | x :: xs => argmaxAux 1 0 x xs

/-- The `for i in range(npoint)` loop of `farthest_point_sample`: records the
current `farthest` index, recomputes distances to it, takes the pointwise
minimum with the running `distance` array (`distance[mask] = dist[mask]`
with `mask = dist < distance`), and moves `farthest` to the argmax. -/
def fpsLoop {α : Type} [LinearOrderedField α] (xyz : List (List α)) :
    ℕ → List α → ℕ → List ℕ
  | 0, _, _ => []
  | n + 1, distance, farthest =>
    let dist := xyz.map (fun p => sqDist3 p (xyz.getD farthest []))
    let distance' := List.zipWith (fun d old => if d < old then d else old) dist distance
    farthest :: fpsLoop xyz n distance' (argmaxList distance')

/-- `farthest_point_sample(point, npoint)` (datasets.py lines 73-94).
`start` is the drawn value of `np.random.randint(0, N)`. -/
def farthest_point_sample {α : Type} [LinearOrderedField α]
    (point : List (List α)) (npoint : ℕ) (start : ℕ) : List (List α) :=
  let xyz := point.map (fun r => r.take 3)
  let centroids := fpsLoop xyz npoint (List.replicate point.length (1e10 : α)) start
  centroids.map (fun c => point.getD c [])

/-- A torch tensor, as needed by `customized_collate_fn`: a shape together
with the flattened (row-major) data. -/
structure Tensor where
  shape : List ℕ
  data : List ℚ
deriving DecidableEq, Repr

/-- `customized_collate_fn(batch)` (datasets.py lines 774-790), restricted
to a batch whose elements are tensors (the `isinstance(elem, torch.Tensor)`
branch).  `elem = batch[0]` raises on an empty batch; the guard
`batch = [example for example in batch if example[4] is not None]` indexes
each tensor at position 4 of its leading dimension, which raises
`IndexError` unless the tensor has a first dimension of size at least 5
(a subtensor is never `None`, so when indexing succeeds nothing is
filtered out); `torch.stack(batch, 0)` then requires equal shapes and
prepends the batch dimension.  The shared-memory `out=` path only changes
where the result is stored, not its value. -/
def customized_collate_fn (batch : List Tensor) : Except String Tensor :=
  match batch with
  | [] => .error "IndexError: batch is empty"
  | elem :: _ =>
    if batch.all (fun t => 4 < t.shape.headD 0) then
      if batch.all (fun t => t.shape = elem.shape) then
        .ok ⟨batch.length :: elem.shape, (batch.map Tensor.data).flatten⟩
      else .error "stack expects each tensor to be equal size"
    else .error "IndexError: index 4 is out of bounds"

/-- `np.clip(x, lo, hi)` for a scalar. -/
noncomputable def clipR (x lo hi : ℝ) : ℝ := min (max x lo) hi

/-- `np.dot(row, M)` for a length-3 row vector and a 3x3 matrix
(the `np.dot(shape_pc.reshape((-1, 3)), rotation_matrix)` of the rotation
augmentations, one row at a time). -/
noncomputable def matVec3 (p : List ℝ) (M : List (List ℝ)) : List ℝ :=
  (List.range 3).map
    (fun j => ((List.range 3).map (fun k => p.getD k 0 * (M.getD k []).getD j 0)).sum)

/-- 3x3 matrix product `np.dot(A, B)`. -/
noncomputable def matMul3 (A B : List (List ℝ)) : List (List ℝ) :=
  (List.range 3).map (fun i =>
    (List.range 3).map (fun j =>
      ((List.range 3).map (fun k => (A.getD i []).getD k 0 * (B.getD k []).getD j 0)).sum))

/-- `rotate_point_cloud(batch_data)` (datasets.py lines 97-115): one random
angle per cloud (`θ k` is the drawn `np.random.uniform() * 2 * np.pi` of
cloud `k`), rotation about the up (y) axis. -/
noncomputable def rotate_point_cloud (batch_data : List (List (List ℝ))) (θ : ℕ → ℝ) :
    List (List (List ℝ)) :=
  listMapIdx (fun k cloud =>
    cloud.map (fun p =>
      matVec3 p [[Real.cos (θ k), 0, Real.sin (θ k)],
                 [0, 1, 0],
                 [-Real.sin (θ k), 0, Real.cos (θ k)]])) batch_data

/-- `random_point_dropout(batch_pc, max_dropout_ratio)` (datasets.py lines
118-125).  `r b` is the drawn `np.random.random()` of cloud `b` (so the
dropout ratio is `r b * max_dropout_ratio`), `d b i` the drawn
`np.random.random((N,))[i]`.  Rows whose draw is `≤` the ratio are replaced
by row 0, and only when the set of such rows is nonempty
(`if len(drop_idx) > 0`). -/
noncomputable def random_point_dropout (batch_pc : List (List (List ℝ)))
    (r : ℕ → ℝ) (d : ℕ → ℕ → ℝ) (max_dropout_ratio : ℝ) : List (List (List ℝ)) :=
  listMapIdx (fun b (cloud : List (List ℝ)) =>
    if ∃ i ∈ List.range cloud.length, d b i ≤ r b * max_dropout_ratio then
      listMapIdx (fun i row =>
        if d b i ≤ r b * max_dropout_ratio then cloud.getD 0 [] else row) cloud
    else cloud) batch_pc

/-- `random_scale_point_cloud(batch_data, scale_low, scale_high)`
(datasets.py lines 128-139).  `s b` is the drawn
`np.random.uniform(scale_low, scale_high, B)[b]`; the bounds only constrain
the draw, they do not enter the computation. -/
def random_scale_point_cloud (batch_data : List (List (List ℝ))) (s : ℕ → ℝ) :
    List (List (List ℝ)) :=
  listMapIdx (fun b cloud => cloud.map (fun row => row.map (fun x => x * s b))) batch_data

/-- `shift_point_cloud(batch_data, shift_range)` (datasets.py lines
142-153).  `sh b` is the drawn `np.random.uniform(-shift_range,
shift_range, (B, 3))[b]`. -/
def shift_point_cloud (batch_data : List (List (List ℝ))) (sh : ℕ → ℝ × ℝ × ℝ) :
    List (List (List ℝ)) :=
  listMapIdx (fun b cloud =>
    cloud.map (fun row =>
      List.zipWith (fun x v => x + v) row [(sh b).1, (sh b).2.1, (sh b).2.2])) batch_data

/-- `jitter_point_cloud(batch_data, sigma, clip)` (datasets.py lines
156-167).  `n b i j` is the drawn `np.random.randn(B, N, C)[b, i, j]`; the
code asserts `clip > 0` and returns
`np.clip(sigma * randn, -clip, clip) + batch_data`. -/
noncomputable def jitter_point_cloud (batch_data : List (List (List ℝ)))
    (n : ℕ → ℕ → ℕ → ℝ) (sigma clip : ℝ) : List (List (List ℝ)) :=
  listMapIdx (fun b cloud =>
    listMapIdx (fun i row =>
      listMapIdx (fun j x => clipR (sigma * n b i j) (-clip) clip + x) row) cloud) batch_data

/-- Rotation about the x axis by angle `a` (the `Rx` of
`rotate_perturbation_point_cloud`). -/
noncomputable def rotMatX (a : ℝ) : List (List ℝ) :=
  [[1, 0, 0],
   [0, Real.cos a, -Real.sin a],
   [0, Real.sin a, Real.cos a]]

/-- Rotation about the y axis by angle `a` (the `Ry` of
`rotate_perturbation_point_cloud`). -/
noncomputable def rotMatY (a : ℝ) : List (List ℝ) :=
  [[Real.cos a, 0, Real.sin a],
   [0, 1, 0],
   [-Real.sin a, 0, Real.cos a]]

/-- Rotation about the z axis by angle `a` (the `Rz` of
`rotate_perturbation_point_cloud`). -/
noncomputable def rotMatZ (a : ℝ) : List (List ℝ) :=
  [[Real.cos a, -Real.sin a, 0],
   [Real.sin a, Real.cos a, 0],
   [0, 0, 1]]

/-- `rotate_perturbation_point_cloud(batch_data, angle_sigma, angle_clip)`
(datasets.py lines 170-204).  `g k` is the drawn `np.random.randn(3)` of
cloud `k`; the angles are `np.clip(angle_sigma * g, -angle_clip,
angle_clip)` and the rotation is `R = Rz @ (Ry @ Rx)`. -/
noncomputable def rotate_perturbation_point_cloud (batch_data : List (List (List ℝ)))
    (g : ℕ → ℝ × ℝ × ℝ) (angle_sigma angle_clip : ℝ) : List (List (List ℝ)) :=
  listMapIdx (fun k cloud =>
    cloud.map (fun p =>
      matVec3 p (matMul3 (rotMatZ (clipR (angle_sigma * (g k).2.2) (-angle_clip) angle_clip))
        (matMul3 (rotMatY (clipR (angle_sigma * (g k).2.1) (-angle_clip) angle_clip))
          (rotMatX (clipR (angle_sigma * (g k).1) (-angle_clip) angle_clip)))))) batch_data

/-- The shape of a B x N x C nested array: the list of row lengths of each
cloud (its length is B, each inner list has length N, each entry is C). -/
def shapeOf (b : List (List (List ℝ))) : List (List ℕ) :=
  b.map (fun c => c.map List.length)

/-- The augmentation chain of `Objverse.__getitem__` (datasets.py lines
473-479): `pc[None, ...]`, then dropout, scale, shift, rotation
perturbation, rotation (with the source's default parameters), then
`squeeze()`.  Each argument after `pc` is one of the random draws. -/
noncomputable def objverse_augment (pc : List (List ℝ)) (dropR : ℝ) (dropD : ℕ → ℝ)
    (scaleS : ℝ) (shiftD : ℝ × ℝ × ℝ) (pertG : ℝ × ℝ × ℝ) (rotA : ℝ) :
    List (List ℝ) :=
  (rotate_point_cloud
    (rotate_perturbation_point_cloud
      (shift_point_cloud
        (random_scale_point_cloud
          (random_point_dropout [pc] (fun _ => dropR) (fun _ => dropD) 0.875)
          (fun _ => scaleS))
        (fun _ => shiftD))
      (fun _ => pertG) 0.06 0.18)
    (fun _ => rotA)).getD 0 []

/-- The augmentation chain of `ShapeNet.__getitem__` (datasets.py lines
677-683); textually the same five calls as in `Objverse.__getitem__`. -/
noncomputable def shapeNet_augment (pc : List (List ℝ)) (dropR : ℝ) (dropD : ℕ → ℝ)
    (scaleS : ℝ) (shiftD : ℝ × ℝ × ℝ) (pertG : ℝ × ℝ × ℝ) (rotA : ℝ) :
    List (List ℝ) :=
  (rotate_point_cloud
    (rotate_perturbation_point_cloud
      (shift_point_cloud
        (random_scale_point_cloud
          (random_point_dropout [pc] (fun _ => dropR) (fun _ => dropD) 0.875)
          (fun _ => scaleS))
        (fun _ => shiftD))
      (fun _ => pertG) 0.06 0.18)
    (fun _ => rotA)).getD 0 []

/-- Modelled from the spec: the spec names the augmentation chain
"(dropout, scale, shift, jitter, rotation)", i.e. with `jitter_point_cloud`
(at its default `sigma=0.01, clip=0.05`) as the step between shift and
rotation; no `rotate_perturbation_point_cloud`.  `jitN` is the jitter noise
draw. -/
noncomputable def specAugmentChain (pc : List (List ℝ)) (dropR : ℝ) (dropD : ℕ → ℝ)
    (scaleS : ℝ) (shiftD : ℝ × ℝ × ℝ) (jitN : ℕ → ℕ → ℕ → ℝ) (rotA : ℝ) :
    List (List ℝ) :=
  (rotate_point_cloud
    (jitter_point_cloud
      (shift_point_cloud
        (random_scale_point_cloud
          (random_point_dropout [pc] (fun _ => dropR) (fun _ => dropD) 0.875)
          (fun _ => scaleS))
        (fun _ => shiftD))
      jitN 0.01 0.05)
    (fun _ => rotA)).getD 0 []

/-- The mutable state of a `ModelNet` dataset instance that `_get_item`
touches, for the live configuration of `__init__` (`process_data = True`,
`uniform = True`, so points and labels come from the pickled cache).
Labels (`np.array([cls])`) are modelled by their single integer. -/
structure ModelNetState where
  list_of_points : List (List (List ℝ))
  list_of_labels : List ℕ
  npoints : ℕ
  use_normals : Bool
  use_height : Bool

/-- `point_set[:, 0:3] = pc_normalize(point_set[:, 0:3])`: each row keeps
its tail beyond column 3 and has its first three entries replaced by the
corresponding row of the normalized three-column slice. -/
noncomputable def normalizeCols3 (ps : List (List ℝ)) : List (List ℝ) :=
  listMapIdx (fun i r =>
    (pc_normalize (ps.map (fun row => row.take 3))).getD i [] ++ r.drop 3) ps

/-- The `use_height` branch of `_get_item`: append
`point_set[:, 1:2] - point_set[:, 1:2].min()` as an extra column. -/
noncomputable def appendHeight (ps : List (List ℝ)) : List (List ℝ) :=
  ps.map (fun r => r ++ [r.getD 1 0 - listMin (ps.map (fun row => row.getD 1 0))])

/-- The tail of `_get_item` after the in-place normalization: drop the
normal columns unless `use_normals`, and append the height column when
`use_height`. -/
noncomputable def postProcess (st : ModelNetState) (ps : List (List ℝ)) :
    List (List ℝ) :=
  if st.use_height then
    appendHeight (if st.use_normals then ps else ps.map (fun r => r.take 3))
  else
    if st.use_normals then ps else ps.map (fun r => r.take 3)

namespace ModelNet

/-- `ModelNet._get_item(index)` (datasets.py lines 351-380) on the live
`process_data = True` path: read the cached points and label; if
`npoints < point_set.shape[0]`, farthest-point-sample into a fresh array
(fancy indexing copies, so the cache is untouched), otherwise the in-place
`point_set[:, 0:3] = pc_normalize(...)` writes into the cached array
itself.  `fpsStart` is the random start index drawn inside
`farthest_point_sample`.  Returns the new state, the point set and the
label. -/
noncomputable def get_item (st : ModelNetState) (index fpsStart : ℕ) :
    ModelNetState × (List (List ℝ) × ℕ) :=
  let point_set := st.list_of_points.getD index []
  let label := st.list_of_labels.getD index 0
  if st.npoints < point_set.length then
    (st,
      postProcess st
        (normalizeCols3 (farthest_point_sample point_set st.npoints fpsStart)),
      label)
  else
    ({st with list_of_points :=
        st.list_of_points.set index (normalizeCols3 point_set)},
      postProcess st (normalizeCols3 point_set), label)

end ModelNet

/-- A concrete two-point, three-column `ModelNet` cache entry whose points
are not yet normalized (centroid `(1,0,0)`, max radius `1`). -/
noncomputable def mnExample : ModelNetState :=
  { list_of_points := [[[2, 0, 0], [0, 0, 0]]]
    list_of_labels := [0]
    npoints := 2
    use_normals := true
    use_height := false }

/-! ### Helper lemmas about the list combinators -/

theorem length_listMapIdxAux (f : ℕ → α → β) (k : ℕ) (l : List α) :
    (listMapIdxAux f k l).length = l.length := by
  induction l generalizing k with
  | nil => rfl
  | cons x xs ih => simp [listMapIdxAux, ih]

theorem length_listMapIdx (f : ℕ → α → β) (l : List α) :
    (listMapIdx f l).length = l.length :=
  length_listMapIdxAux f 0 l

theorem getD_listMapIdxAux (f : ℕ → α → β) (k : ℕ) (l : List α) (i : ℕ)
    (h : i < l.length) (d : β) (d' : α) :
    (listMapIdxAux f k l).getD i d = f (k + i) (l.getD i d') := by
  induction l generalizing k i with
  | nil => simp at h
  | cons x xs ih =>
    cases i with
    | zero => rfl
    | succ n =>
      have := ih (k + 1) n (by simpa using h)
      simpa [listMapIdxAux, Nat.add_assoc, Nat.add_comm 1 n] using this

theorem getD_listMapIdx (f : ℕ → α → β) (l : List α) (i : ℕ)
    (h : i < l.length) (d : β) (d' : α) :
    (listMapIdx f l).getD i d = f i (l.getD i d') := by
  simpa using getD_listMapIdxAux f 0 l i h d d'

theorem getD_listMapIdx_ge (f : ℕ → α → β) (l : List α) (i : ℕ)
    (h : l.length ≤ i) (d : β) :
    (listMapIdx f l).getD i d = d :=
  List.getD_eq_default _ _ (by simpa [length_listMapIdx] using h)

theorem getD_map_of_lt (f : α → β) (l : List α) (i : ℕ) (h : i < l.length)
    (d : β) (d' : α) :
    (l.map f).getD i d = f (l.getD i d') := by
  induction l generalizing i with
  | nil => simp at h
  | cons x xs ih =>
    cases i with
    | zero => rfl
    | succ n => simpa using ih n (by simpa using h)

theorem getD_zipWith_of_lt (f : α → β → γ) (l₁ : List α) (l₂ : List β) (i : ℕ)
    (h₁ : i < l₁.length) (h₂ : i < l₂.length) (d : γ) (d₁ : α) (d₂ : β) :
    (List.zipWith f l₁ l₂).getD i d = f (l₁.getD i d₁) (l₂.getD i d₂) := by
  induction l₁ generalizing l₂ i with
  | nil => simp at h₁
  | cons x xs ih =>
    cases l₂ with
    | nil => simp at h₂
    | cons y ys =>
      cases i with
      | zero => rfl
      | succ n => simpa using ih ys n (by simpa using h₁) (by simpa using h₂)

/-! ### C8: the three normalization routines are extensionally equal -/

/-- C8: for every point cloud `pc`, `pc_normalize(pc)`, `Objverse.pc_norm(pc)`
and `ShapeNet.pc_norm(pc)` return the same array: they are three copies of the
same centroid-subtract-then-divide-by-max-norm computation. -/
theorem c8_pc_norm_copies_agree :
    ∀ pc : List (List ℝ),
      Objverse.pc_norm pc = pc_normalize pc ∧ ShapeNet.pc_norm pc = pc_normalize pc :=
  fun _ => ⟨rfl, rfl⟩

/-! ### C3: collation of a batch of same-shaped tensors -/

/-- C3 counterexample: a nonempty batch of same-shaped tensors whose first
dimension is at most 4 (here one tensor of shape `[1]`) makes
`customized_collate_fn` raise `IndexError` in the
`example[4] is not None` filter instead of returning the stacked tensor of
shape `k × S = [1, 1]`. -/
theorem c3_counterexample :
    customized_collate_fn [⟨[1], [5]⟩] = .error "IndexError: index 4 is out of bounds" ∧
      customized_collate_fn [⟨[1], [5]⟩] ≠ .ok ⟨[1, 1], [5]⟩ := by
  have h1 : customized_collate_fn [⟨[1], [5]⟩] =
      .error "IndexError: index 4 is out of bounds" := rfl
  exact ⟨h1, by rw [h1]; simp⟩

/-- C3 (amended): for every nonempty batch of tensors of one common shape `S`
whose leading dimension is at least 5 (so that the `example[4]` probe of the
filter succeeds), `customized_collate_fn` returns the single tensor of shape
`k × S` obtained by stacking the inputs along a new leading batch
dimension. -/
theorem c3_collate_stacks (batch : List Tensor) (s : List ℕ)
    (hne : batch ≠ [])
    (hs : ∀ t ∈ batch, t.shape = s)
    (hdim : 4 < s.headD 0) :
    customized_collate_fn batch =
      .ok ⟨batch.length :: s, (batch.map Tensor.data).flatten⟩ := by
  match batch, hne with
  | t :: rest, _ =>
    have hts : t.shape = s := hs t (by simp)
    have hall1 : ((t :: rest).all (fun u => 4 < u.shape.headD 0)) = true := by
      rw [List.all_eq_true]
      intro u hu
      simp only [decide_eq_true_eq]
      rw [hs u hu]
      exact hdim
    have hall2 : ((t :: rest).all (fun u => u.shape = t.shape)) = true := by
      rw [List.all_eq_true]
      intro u hu
      simp only [decide_eq_true_eq]
      rw [hs u hu, hts]
    simp only [customized_collate_fn]
    rw [hall1, hall2]
    simp [hts]

/-- C3 witness: two shape-`[5]` tensors collate to one tensor of shape
`[2, 5]` holding both data rows. -/
theorem c3_witness :
    (([⟨[5], [0, 1, 2, 3, 4]⟩, ⟨[5], [5, 6, 7, 8, 9]⟩] : List Tensor) ≠ [] ∧
        (∀ t ∈ ([⟨[5], [0, 1, 2, 3, 4]⟩, ⟨[5], [5, 6, 7, 8, 9]⟩] : List Tensor),
          t.shape = [5]) ∧
        4 < ([5] : List ℕ).headD 0) ∧
      customized_collate_fn [⟨[5], [0, 1, 2, 3, 4]⟩, ⟨[5], [5, 6, 7, 8, 9]⟩] =
        .ok ⟨[2, 5], [0, 1, 2, 3, 4, 5, 6, 7, 8, 9]⟩ :=
  ⟨⟨by decide, by decide, by decide⟩,
    c3_collate_stacks _ [5] (by decide) (by decide) (by decide)⟩

/-! ### C6: find_bucket is safe on in-range indices -/

theorem length_cumsum (l : List ℕ) : (cumsum l).length = l.length := by
  induction l with
  | nil => rfl
  | cons c rest ih => simp [cumsum, ih]

theorem cumsum_getD (l : List ℕ) (j : ℕ) (h : j < l.length) :
    (cumsum l).getD j 0 = (l.take (j + 1)).sum := by
  induction l generalizing j with
  | nil => simp at h
  | cons c rest ih =>
    cases j with
    | zero => simp [cumsum]
    | succ n =>
      have hn : n < rest.length := by simpa using h
      have hmap := getD_map_of_lt (fun x => c + x) (cumsum rest) n
        (by simpa [length_cumsum] using hn) 0 0
      simp only [cumsum, List.getD_cons_succ, hmap, ih n hn, List.take_succ_cons,
        List.sum_cons]

theorem sum_take_succ_getD (l : List ℕ) (j : ℕ) (h : j < l.length) :
    (l.take (j + 1)).sum = (l.take j).sum + l.getD j 0 := by
  induction l generalizing j with
  | nil => simp at h
  | cons c rest ih =>
    cases j with
    | zero => simp
    | succ n =>
      have hn : n < rest.length := by simpa using h
      simp only [List.take_succ_cons, List.sum_cons, List.getD_cons_succ, ih n hn]
      omega

theorem findBucketAux_spec (id : ℕ) (l : List ℕ) :
    ∀ bid : ℕ, (∃ k, k < l.length ∧ id < l.getD k 0) →
      ∃ j, j < l.length ∧ Objverse.findBucketAux id bid l = some (bid + j) ∧
        id < l.getD j 0 ∧ ∀ k < j, l.getD k 0 ≤ id := by
  induction l with
  | nil =>
    intro bid h
    obtain ⟨k, hk, _⟩ := h
    simp at hk
  | cons s rest ih =>
    intro bid h
    by_cases hs : s ≤ id
    · have h' : ∃ k, k < rest.length ∧ id < rest.getD k 0 := by
        obtain ⟨k, hk, hid⟩ := h
        cases k with
        | zero => simp only [List.getD_cons_zero] at hid; omega
        | succ k' => exact ⟨k', by simpa using hk, by simpa using hid⟩
      obtain ⟨j, hj, heq, hlt, hall⟩ := ih (bid + 1) h'
      refine ⟨j + 1, by simpa using hj, ?_, by simpa using hlt, ?_⟩
      · have : Objverse.findBucketAux id bid (s :: rest) =
            Objverse.findBucketAux id (bid + 1) rest := by
          simp [Objverse.findBucketAux, hs]
        rw [this, heq]
        congr 1
        omega
      · intro k hk
        cases k with
        | zero => simpa using hs
        | succ k' => simpa using hall k' (by omega)
    · push_neg at hs
      refine ⟨0, by simp, ?_, by simpa using hs, by omega⟩
      simp [Objverse.findBucketAux, hs, Nat.not_le.mpr hs]

/-- C6: for every index below the total entry count, `find_bucket` applied to
the cumulative bucket sizes returns `some bid` with `bid` a valid bucket
number, the index inside that bucket's cumulative range (lower bound `0` for
`bid = 0`), and the local key `index - initial_idx` a valid in-bucket offset;
in particular the fall-through `None` of `find_bucket` is unreachable. -/
theorem c6_find_bucket_in_range (counts : List ℕ) (index : ℕ)
    (h : index < counts.sum) :
    ∃ bid, Objverse.find_bucket index (cumsum counts) = some bid ∧
      bid < counts.length ∧
      (if bid = 0 then 0 else (cumsum counts).getD (bid - 1) 0) ≤ index ∧
      index < (cumsum counts).getD bid 0 ∧
      index - (if bid = 0 then 0 else (cumsum counts).getD (bid - 1) 0) <
        counts.getD bid 0 := by
  have hne : counts ≠ [] := by
    intro hnil
    rw [hnil] at h
    simp at h
  have hlen : 0 < counts.length := List.length_pos.mpr hne
  have hex : ∃ k, k < (cumsum counts).length ∧ index < (cumsum counts).getD k 0 := by
    refine ⟨counts.length - 1, by simp [length_cumsum]; omega, ?_⟩
    rw [cumsum_getD counts _ (by omega)]
    have : counts.length - 1 + 1 = counts.length := by omega
    rw [this, List.take_length]
    exact h
  obtain ⟨j, hj, heq, hlt, hall⟩ := findBucketAux_spec index (cumsum counts) 0 hex
  rw [length_cumsum] at hj
  have hlow : (if j = 0 then 0 else (cumsum counts).getD (j - 1) 0) ≤ index := by
    cases j with
    | zero => simp
    | succ n => simpa using hall n (by omega)
  refine ⟨j, by simpa [Objverse.find_bucket] using heq, hj, hlow, hlt, ?_⟩
  cases j with
  | zero =>
    rw [if_pos rfl]
    rw [cumsum_getD counts 0 (by omega), sum_take_succ_getD counts 0 (by omega)] at hlt
    simp only [List.take_zero, List.sum_nil, Nat.zero_add] at hlt
    omega
  | succ n =>
    rw [if_neg (Nat.succ_ne_zero n), Nat.add_sub_cancel]
    rw [cumsum_getD counts (n + 1) hj] at hlt
    have h3 := sum_take_succ_getD counts (n + 1) hj
    have hlow' : (cumsum counts).getD n 0 ≤ index := by simpa using hall n (by omega)
    rw [cumsum_getD counts n (by omega)] at hlow' ⊢
    omega

/-- C6 witness: bucket sizes `[2, 3]` give cumulative scale `[2, 5]`; index 3
lands in bucket 1 with local offset `3 - 2 = 1 < 3`. -/
theorem c6_witness :
    3 < ([2, 3] : List ℕ).sum ∧
      (∃ bid, Objverse.find_bucket 3 (cumsum [2, 3]) = some bid ∧
        bid < ([2, 3] : List ℕ).length ∧
        (if bid = 0 then 0 else (cumsum [2, 3]).getD (bid - 1) 0) ≤ 3 ∧
        3 < (cumsum [2, 3]).getD bid 0 ∧
        3 - (if bid = 0 then 0 else (cumsum [2, 3]).getD (bid - 1) 0) <
          ([2, 3] : List ℕ).getD bid 0) :=
  ⟨by decide, c6_find_bucket_in_range [2, 3] 3 (by decide)⟩

/-! ### C2: farthest_point_sample returns npoint rows including the start point -/

theorem fpsLoop_length {α : Type} [LinearOrderedField α] (xyz : List (List α))
    (n : ℕ) : ∀ (dist : List α) (far : ℕ), (fpsLoop xyz n dist far).length = n := by
  induction n with
  | zero => intro dist far; rfl
  | succ m ih => intro dist far; simp [fpsLoop, ih]

/-- C2: for every point array with at least one row of dimension at least 3
and every `npoint ≥ 1`, `farthest_point_sample` returns exactly `npoint`
rows, and the first selected farthest point — the row at the randomly drawn
start index, recorded as `centroids[0]` — is the first returned row, hence
among the returned rows. -/
theorem c2_farthest_point_sample (point : List (List ℚ)) (npoint start : ℕ)
    (hN : point ≠ []) (hD : ∀ r ∈ point, 3 ≤ r.length)
    (hnp : 1 ≤ npoint) (hstart : start < point.length) :
    (farthest_point_sample point npoint start).length = npoint ∧
      (farthest_point_sample point npoint start).getD 0 [] = point.getD start [] ∧
      point.getD start [] ∈ farthest_point_sample point npoint start := by
  obtain ⟨n, rfl⟩ : ∃ n, npoint = n + 1 := ⟨npoint - 1, by omega⟩
  have hloop : fpsLoop (point.map (fun r => r.take 3)) (n + 1)
      (List.replicate point.length (1e10 : ℚ)) start =
      start :: fpsLoop (point.map (fun r => r.take 3)) n
        (List.zipWith (fun d old => if d < old then d else old)
          ((point.map (fun r => r.take 3)).map
            (fun p => sqDist3 p ((point.map (fun r => r.take 3)).getD start [])))
          (List.replicate point.length (1e10 : ℚ)))
        (argmaxList
          (List.zipWith (fun d old => if d < old then d else old)
            ((point.map (fun r => r.take 3)).map
              (fun p => sqDist3 p ((point.map (fun r => r.take 3)).getD start [])))
            (List.replicate point.length (1e10 : ℚ)))) := rfl
  refine ⟨?_, ?_, ?_⟩
  · simp [farthest_point_sample, fpsLoop_length]
  · rw [farthest_point_sample, hloop]
    rfl
  · rw [farthest_point_sample, hloop]
    exact List.mem_cons_self _ _

/-- C2 witness: a two-point cloud sampled down from start index 1 yields 2
rows whose first row is the start point. -/
theorem c2_witness :
    (([[0, 0, 0], [3, 4, 0]] : List (List ℚ)) ≠ [] ∧
        (∀ r ∈ ([[0, 0, 0], [3, 4, 0]] : List (List ℚ)), 3 ≤ r.length) ∧
        1 ≤ 2 ∧ 1 < ([[0, 0, 0], [3, 4, 0]] : List (List ℚ)).length) ∧
      ((farthest_point_sample [[0, 0, 0], [3, 4, 0]] 2 1 : List (List ℚ)).length = 2 ∧
        (farthest_point_sample [[0, 0, 0], [3, 4, 0]] 2 1 : List (List ℚ)).getD 0 [] =
          ([[0, 0, 0], [3, 4, 0]] : List (List ℚ)).getD 1 [] ∧
        ([[0, 0, 0], [3, 4, 0]] : List (List ℚ)).getD 1 [] ∈
          (farthest_point_sample [[0, 0, 0], [3, 4, 0]] 2 1 : List (List ℚ))) :=
  ⟨⟨by decide, by decide, by decide, by decide⟩,
    c2_farthest_point_sample [[0, 0, 0], [3, 4, 0]] 2 1
      (by decide) (by decide) (by decide) (by decide)⟩

/-! ### C4: the augmentation functions preserve the B x N x 3 shape -/

theorem map_listMapIdxAux (h : β → γ) (f : ℕ → α → β) (k : ℕ) (l : List α) :
    (listMapIdxAux f k l).map h = listMapIdxAux (fun i x => h (f i x)) k l := by
  induction l generalizing k with
  | nil => rfl
  | cons x xs ih => simp [listMapIdxAux, ih]

theorem listMapIdxAux_eq_map (f : ℕ → α → β) (g : α → β) (k : ℕ) (l : List α)
    (h : ∀ i x, x ∈ l → f i x = g x) : listMapIdxAux f k l = l.map g := by
  induction l generalizing k with
  | nil => rfl
  | cons x xs ih =>
    simp only [listMapIdxAux, List.map_cons, h k x (by simp)]
    rw [ih (k + 1) (fun i y hy => h i y (by simp [hy]))]

theorem listMapIdx_map_eq (f : ℕ → α → β) (meas : β → γ) (meas' : α → γ)
    (l : List α) (h : ∀ i x, x ∈ l → meas (f i x) = meas' x) :
    (listMapIdx f l).map meas = l.map meas' := by
  rw [listMapIdx, map_listMapIdxAux]
  exact listMapIdxAux_eq_map _ _ 0 l h

theorem mem_listMapIdxAux (f : ℕ → α → β) (k : ℕ) (l : List α) (x : β)
    (h : x ∈ listMapIdxAux f k l) :
    ∃ i, ∃ hi : i < l.length, x = f (k + i) (l.get ⟨i, hi⟩) := by
  induction l generalizing k with
  | nil => simp [listMapIdxAux] at h
  | cons a as ih =>
    rcases List.mem_cons.mp h with h1 | h2
    · exact ⟨0, by simp, by simpa using h1⟩
    · obtain ⟨i, hi, hx⟩ := ih (k + 1) h2
      refine ⟨i + 1, by simpa using hi, ?_⟩
      rw [hx]
      congr 1
      omega

theorem length_matVec3 (p : List ℝ) (M : List (List ℝ)) :
    (matVec3 p M).length = 3 := by
  simp [matVec3]

theorem shapeOf_random_point_dropout (batch : List (List (List ℝ)))
    (r : ℕ → ℝ) (d : ℕ → ℕ → ℝ) (mdr : ℝ)
    (h3 : ∀ c ∈ batch, ∀ x ∈ c, x.length = 3) :
    shapeOf (random_point_dropout batch r d mdr) = shapeOf batch := by
  unfold shapeOf random_point_dropout
  apply listMapIdx_map_eq
  intro b cloud hc
  split
  · next hex =>
    obtain ⟨i0, hi0, _⟩ := hex
    have hne : cloud ≠ [] := by
      intro h0
      rw [h0] at hi0
      simp at hi0
    have hhead : cloud.getD 0 [] ∈ cloud := by
      cases cloud with
      | nil => exact absurd rfl hne
      | cons a as => exact List.mem_cons_self a as
    rw [listMapIdx, map_listMapIdxAux]
    apply listMapIdxAux_eq_map
    intro i x hx
    split
    · rw [h3 cloud hc _ hhead, h3 cloud hc x hx]
    · rfl
  · rfl

theorem shapeOf_random_scale (batch : List (List (List ℝ))) (s : ℕ → ℝ) :
    shapeOf (random_scale_point_cloud batch s) = shapeOf batch := by
  unfold shapeOf random_scale_point_cloud
  apply listMapIdx_map_eq
  intro b cloud _
  simp [List.map_map, Function.comp]

theorem shapeOf_shift (batch : List (List (List ℝ))) (sh : ℕ → ℝ × ℝ × ℝ)
    (h3 : ∀ c ∈ batch, ∀ x ∈ c, x.length = 3) :
    shapeOf (shift_point_cloud batch sh) = shapeOf batch := by
  unfold shapeOf shift_point_cloud
  apply listMapIdx_map_eq
  intro b cloud hc
  rw [List.map_map]
  apply List.map_congr_left
  intro row hrow
  simp [Function.comp, List.length_zipWith, h3 cloud hc row hrow]

theorem shapeOf_jitter (batch : List (List (List ℝ)))
    (n : ℕ → ℕ → ℕ → ℝ) (sigma clip : ℝ) :
    shapeOf (jitter_point_cloud batch n sigma clip) = shapeOf batch := by
  unfold shapeOf jitter_point_cloud
  apply listMapIdx_map_eq
  intro b cloud _
  apply listMapIdx_map_eq
  intro i row _
  exact length_listMapIdx _ row

theorem shapeOf_rotate (batch : List (List (List ℝ))) (θ : ℕ → ℝ)
    (h3 : ∀ c ∈ batch, ∀ x ∈ c, x.length = 3) :
    shapeOf (rotate_point_cloud batch θ) = shapeOf batch := by
  unfold shapeOf rotate_point_cloud
  apply listMapIdx_map_eq
  intro k cloud hc
  rw [List.map_map]
  apply List.map_congr_left
  intro p hp
  simp only [Function.comp_apply, length_matVec3]
  exact (h3 cloud hc p hp).symm

theorem shapeOf_rotate_perturbation (batch : List (List (List ℝ)))
    (g : ℕ → ℝ × ℝ × ℝ) (angle_sigma angle_clip : ℝ)
    (h3 : ∀ c ∈ batch, ∀ x ∈ c, x.length = 3) :
    shapeOf (rotate_perturbation_point_cloud batch g angle_sigma angle_clip) =
      shapeOf batch := by
  unfold shapeOf rotate_perturbation_point_cloud
  apply listMapIdx_map_eq
  intro k cloud hc
  rw [List.map_map]
  apply List.map_congr_left
  intro p hp
  simp only [Function.comp_apply, length_matVec3]
  exact (h3 cloud hc p hp).symm

/-- C4: each augmentation function (`random_point_dropout`,
`random_scale_point_cloud`, `shift_point_cloud`, `jitter_point_cloud`,
`rotate_point_cloud`, `rotate_perturbation_point_cloud`) maps every
`B × N × 3` batch (with arbitrary random draws, and `clip > 0` for jitter as
its `assert` demands) to an output of the same shape `B × N × 3`. -/
theorem c4_augmentations_preserve_shape (batch : List (List (List ℝ))) (N : ℕ)
    (r : ℕ → ℝ) (d : ℕ → ℕ → ℝ) (mdr : ℝ) (s : ℕ → ℝ) (sh : ℕ → ℝ × ℝ × ℝ)
    (n : ℕ → ℕ → ℕ → ℝ) (sigma clip : ℝ) (θ : ℕ → ℝ) (g : ℕ → ℝ × ℝ × ℝ)
    (angle_sigma angle_clip : ℝ)
    (hN : ∀ c ∈ batch, c.length = N)
    (h3 : ∀ c ∈ batch, ∀ x ∈ c, x.length = 3)
    (hclip : 0 < clip) :
    shapeOf (random_point_dropout batch r d mdr) = shapeOf batch ∧
      shapeOf (random_scale_point_cloud batch s) = shapeOf batch ∧
      shapeOf (shift_point_cloud batch sh) = shapeOf batch ∧
      shapeOf (jitter_point_cloud batch n sigma clip) = shapeOf batch ∧
      shapeOf (rotate_point_cloud batch θ) = shapeOf batch ∧
      shapeOf (rotate_perturbation_point_cloud batch g angle_sigma angle_clip) =
        shapeOf batch :=
  ⟨shapeOf_random_point_dropout batch r d mdr h3,
    shapeOf_random_scale batch s,
    shapeOf_shift batch sh h3,
    shapeOf_jitter batch n sigma clip,
    shapeOf_rotate batch θ h3,
    shapeOf_rotate_perturbation batch g angle_sigma angle_clip h3⟩

/-- C4 witness: a concrete 1 x 1 x 3 batch with concrete draws keeps its
shape under all six augmentations. -/
theorem c4_witness :
    ((∀ c ∈ ([[[1, 2, 3]]] : List (List (List ℝ))), c.length = 1) ∧
        (∀ c ∈ ([[[1, 2, 3]]] : List (List (List ℝ))), ∀ x ∈ c, x.length = 3) ∧
        (0 : ℝ) < 0.05) ∧
      (shapeOf (random_point_dropout [[[1, 2, 3]]] (fun _ => 0) (fun _ _ => 1) 0.875) =
          shapeOf [[[1, 2, 3]]] ∧
        shapeOf (random_scale_point_cloud [[[1, 2, 3]]] (fun _ => 2)) =
          shapeOf [[[1, 2, 3]]] ∧
        shapeOf (shift_point_cloud [[[1, 2, 3]]] (fun _ => (1, 1, 1))) =
          shapeOf [[[1, 2, 3]]] ∧
        shapeOf (jitter_point_cloud [[[1, 2, 3]]] (fun _ _ _ => 1) 0.01 0.05) =
          shapeOf [[[1, 2, 3]]] ∧
        shapeOf (rotate_point_cloud [[[1, 2, 3]]] (fun _ => 0)) =
          shapeOf [[[1, 2, 3]]] ∧
        shapeOf (rotate_perturbation_point_cloud [[[1, 2, 3]]] (fun _ => (0, 0, 0))
            0.06 0.18) =
          shapeOf [[[1, 2, 3]]]) :=
  ⟨⟨by simp, by simp, by norm_num⟩,
    c4_augmentations_preserve_shape [[[1, 2, 3]]] 1 (fun _ => 0) (fun _ _ => 1) 0.875
      (fun _ => 2) (fun _ => (1, 1, 1)) (fun _ _ _ => 1) 0.01 0.05 (fun _ => 0)
      (fun _ => (0, 0, 0)) 0.06 0.18 (by simp) (by simp) (by norm_num)⟩

/-! ### C9: rotate_point_cloud only rotates about the up (y) axis -/

/-- C9: for every `B × N × 3` batch and every random rotation angle, the
second coordinate (index 1) of every output point of `rotate_point_cloud`
equals the second coordinate of the corresponding input point. -/
theorem c9_rotate_preserves_y (batch : List (List (List ℝ))) (θ : ℕ → ℝ)
    (h3 : ∀ c ∈ batch, ∀ p ∈ c, p.length = 3) (b i : ℕ)
    (hb : b < batch.length) (hi : i < (batch.getD b []).length) :
    (((rotate_point_cloud batch θ).getD b []).getD i []).getD 1 0 =
      ((batch.getD b []).getD i []).getD 1 0 := by
  rw [rotate_point_cloud, getD_listMapIdx _ _ b hb [] [],
    getD_map_of_lt _ _ i hi [] []]
  simp [matVec3, show List.range 3 = [0, 1, 2] from rfl]

/-- C9 witness: with a concrete one-point batch and angle 1, the y
coordinate survives the rotation. -/
theorem c9_witness :
    ((∀ c ∈ ([[[5, 6, 7]]] : List (List (List ℝ))), ∀ p ∈ c, p.length = 3) ∧
        0 < ([[[5, 6, 7]]] : List (List (List ℝ))).length ∧
        0 < (([[[5, 6, 7]]] : List (List (List ℝ))).getD 0 []).length) ∧
      (((rotate_point_cloud [[[5, 6, 7]]] (fun _ => 1)).getD 0 []).getD 0 []).getD 1 0 =
        ((([[[5, 6, 7]]] : List (List (List ℝ))).getD 0 []).getD 0 []).getD 1 0 :=
  ⟨⟨by simp, by simp, by simp⟩,
    c9_rotate_preserves_y [[[5, 6, 7]]] (fun _ => 1) (by simp) 0 0 (by simp) (by simp)⟩

/-! ### C10: random_point_dropout introduces no new coordinates -/

/-- C10: for every `B × N × 3` batch and every random draw, each point of
the output of `random_point_dropout` equals either the corresponding input
point or the first point (index 0) of its cloud; the point at index 0 of
every cloud is unchanged; and every row of an output cloud already occurs
in the corresponding input cloud. -/
theorem c10_dropout_no_new_points (batch : List (List (List ℝ)))
    (r : ℕ → ℝ) (d : ℕ → ℕ → ℝ) (mdr : ℝ)
    (h3 : ∀ c ∈ batch, ∀ x ∈ c, x.length = 3) :
    (∀ b i : ℕ, b < batch.length → i < (batch.getD b []).length →
        (((random_point_dropout batch r d mdr).getD b []).getD i [] =
            (batch.getD b []).getD i [] ∨
          ((random_point_dropout batch r d mdr).getD b []).getD i [] =
            (batch.getD b []).getD 0 [])) ∧
      (∀ b : ℕ, b < batch.length →
        ((random_point_dropout batch r d mdr).getD b []).getD 0 [] =
          (batch.getD b []).getD 0 []) ∧
      (∀ b : ℕ, b < batch.length →
        ∀ x ∈ (random_point_dropout batch r d mdr).getD b [],
          x ∈ batch.getD b []) := by
  refine ⟨?_, ?_, ?_⟩
  · intro b i hb hi
    rw [random_point_dropout, getD_listMapIdx _ _ b hb [] []]
    split
    · rw [getD_listMapIdx _ _ i hi [] []]
      split
      · right; rfl
      · left; rfl
    · left; rfl
  · intro b hb
    rw [random_point_dropout, getD_listMapIdx _ _ b hb [] []]
    split
    · next hex =>
      obtain ⟨i0, hi0, _⟩ := hex
      have hlen : 0 < (batch.getD b []).length := by
        rcases Nat.eq_zero_or_pos (batch.getD b []).length with h0 | h0
        · rw [h0] at hi0; simp at hi0
        · exact h0
      rw [getD_listMapIdx _ _ 0 hlen [] []]
      split <;> rfl
    · rfl
  · intro b hb x hx
    rw [random_point_dropout, getD_listMapIdx _ _ b hb [] []] at hx
    revert hx
    split
    · next hex =>
      intro hx
      obtain ⟨i0, hi0, _⟩ := hex
      have hne : batch.getD b [] ≠ [] := by
        intro h0
        rw [h0] at hi0
        simp at hi0
      obtain ⟨i, hi, hxi⟩ := mem_listMapIdxAux _ 0 _ x hx
      rw [hxi]
      split
      · cases hcl : batch.getD b [] with
        | nil => exact absurd hcl hne
        | cons a as => exact List.mem_cons_self a as
      · exact List.get_mem _ i hi
    · exact fun hx => hx

/-- C10 witness: a concrete 1 x 2 x 3 batch with a dropout draw that fires
on row 1 only contains rows of the input cloud afterwards. -/
theorem c10_witness :
    (∀ c ∈ ([[[1, 2, 3], [4, 5, 6]]] : List (List (List ℝ))), ∀ x ∈ c, x.length = 3) ∧
      ((∀ b i : ℕ, b < ([[[1, 2, 3], [4, 5, 6]]] : List (List (List ℝ))).length →
          i < (([[[1, 2, 3], [4, 5, 6]]] : List (List (List ℝ))).getD b []).length →
          (((random_point_dropout [[[1, 2, 3], [4, 5, 6]]] (fun _ => 1)
                (fun _ i => if i = 1 then 0 else 1) 0.875).getD b []).getD i [] =
              (([[[1, 2, 3], [4, 5, 6]]] : List (List (List ℝ))).getD b []).getD i [] ∨
            ((random_point_dropout [[[1, 2, 3], [4, 5, 6]]] (fun _ => 1)
                (fun _ i => if i = 1 then 0 else 1) 0.875).getD b []).getD i [] =
              (([[[1, 2, 3], [4, 5, 6]]] : List (List (List ℝ))).getD b []).getD 0 [])) ∧
        (∀ b : ℕ, b < ([[[1, 2, 3], [4, 5, 6]]] : List (List (List ℝ))).length →
          ((random_point_dropout [[[1, 2, 3], [4, 5, 6]]] (fun _ => 1)
              (fun _ i => if i = 1 then 0 else 1) 0.875).getD b []).getD 0 [] =
            (([[[1, 2, 3], [4, 5, 6]]] : List (List (List ℝ))).getD b []).getD 0 []) ∧
        (∀ b : ℕ, b < ([[[1, 2, 3], [4, 5, 6]]] : List (List (List ℝ))).length →
          ∀ x ∈ (random_point_dropout [[[1, 2, 3], [4, 5, 6]]] (fun _ => 1)
              (fun _ i => if i = 1 then 0 else 1) 0.875).getD b [],
            x ∈ ([[[1, 2, 3], [4, 5, 6]]] : List (List (List ℝ))).getD b [])) :=
  ⟨by simp,
    c10_dropout_no_new_points [[[1, 2, 3], [4, 5, 6]]] (fun _ => 1)
      (fun _ i => if i = 1 then 0 else 1) 0.875 (by simp)⟩

/-! ### C5: the fixed augmentation sequence of the two augmenting adapters -/

theorem clipR_eq_self (x lo hi : ℝ) (h1 : lo ≤ x) (h2 : x ≤ hi) :
    clipR x lo hi = x := by
  unfold clipR
  rw [max_eq_left h1, min_eq_left h2]

/-- C5 (amended): the two augmenting adapters (`Objverse` and `ShapeNet`)
apply the augmentation functions in one and the same fixed sequence —
dropout, scale, shift, rotation perturbation, rotation;
`jitter_point_cloud` is not among the steps. -/
theorem c5_adapter_chains_agree :
    ∀ (pc : List (List ℝ)) (dropR : ℝ) (dropD : ℕ → ℝ) (scaleS : ℝ)
      (shiftD pertG : ℝ × ℝ × ℝ) (rotA : ℝ),
      objverse_augment pc dropR dropD scaleS shiftD pertG rotA =
        shapeNet_augment pc dropR dropD scaleS shiftD pertG rotA :=
  fun _ _ _ _ _ _ _ => rfl

theorem c5eval_dropout :
    random_point_dropout [[[(1 : ℝ), 0, 0]]] (fun _ => 0)
      (fun _ => fun _ => 1 / 2) 0.875 = [[[1, 0, 0]]] := by
  unfold random_point_dropout listMapIdx
  simp only [listMapIdxAux]
  rw [if_neg (by intro hex; obtain ⟨i, _, hle⟩ := hex; norm_num at hle)]

theorem c5eval_scale :
    random_scale_point_cloud [[[(1 : ℝ), 0, 0]]] (fun _ => 1) = [[[1, 0, 0]]] := by
  unfold random_scale_point_cloud listMapIdx
  simp [listMapIdxAux]

theorem c5eval_shift :
    shift_point_cloud [[[(1 : ℝ), 0, 0]]] (fun _ => ((0 : ℝ), (0 : ℝ), (0 : ℝ))) =
      [[[1, 0, 0]]] := by
  unfold shift_point_cloud listMapIdx
  simp [listMapIdxAux]

theorem c5eval_perturb :
    rotate_perturbation_point_cloud [[[(1 : ℝ), 0, 0]]]
      (fun _ => ((0 : ℝ), (0 : ℝ), (0 : ℝ))) 0.06 0.18 = [[[1, 0, 0]]] := by
  unfold rotate_perturbation_point_cloud listMapIdx
  have hc : clipR (0 : ℝ) (-0.18) 0.18 = 0 :=
    clipR_eq_self _ _ _ (by norm_num) (by norm_num)
  simp only [listMapIdxAux, List.map_cons, List.map_nil, mul_zero]
  simp only [hc, Real.cos_zero, Real.sin_zero, neg_zero]
  norm_num [rotMatX, rotMatY, rotMatZ, matMul3, matVec3,
    show List.range 3 = [0, 1, 2] from rfl]

theorem c5eval_rotate :
    rotate_point_cloud [[[(1 : ℝ), 0, 0]]] (fun _ => 0) = [[[1, 0, 0]]] := by
  unfold rotate_point_cloud listMapIdx
  simp only [listMapIdxAux, List.map_cons, List.map_nil]
  norm_num [matVec3, Real.cos_zero, Real.sin_zero,
    show List.range 3 = [0, 1, 2] from rfl]

theorem c5eval_jitter :
    jitter_point_cloud [[[(1 : ℝ), 0, 0]]] (fun _ _ _ => 1) 0.01 0.05 =
      [[[1.01, 0.01, 0.01]]] := by
  unfold jitter_point_cloud listMapIdx
  have hc : clipR ((0.01 : ℝ) * 1) (-0.05) 0.05 = 0.01 := by
    rw [mul_one]
    exact clipR_eq_self 0.01 _ _ (by norm_num) (by norm_num)
  simp only [listMapIdxAux, hc]
  norm_num

theorem c5eval_rotate' :
    rotate_point_cloud [[[(1.01 : ℝ), 0.01, 0.01]]] (fun _ => 0) =
      [[[1.01, 0.01, 0.01]]] := by
  unfold rotate_point_cloud listMapIdx
  simp only [listMapIdxAux, List.map_cons, List.map_nil]
  norm_num [matVec3, Real.cos_zero, Real.sin_zero,
    show List.range 3 = [0, 1, 2] from rfl]

/-- C5 counterexample: at a concrete one-point cloud with draws that make
dropout, scale, shift and both rotations act as the identity, the chain the
spec names — with `jitter_point_cloud` as the fourth step — produces a
different result from the chain the adapters actually apply (which uses
`rotate_perturbation_point_cloud` and no jitter): `jitter_point_cloud` is
not one of the applied steps. -/
theorem c5_counterexample :
    specAugmentChain [[1, 0, 0]] 0 (fun _ => 1 / 2) 1 (0, 0, 0) (fun _ _ _ => 1) 0 ≠
      objverse_augment [[1, 0, 0]] 0 (fun _ => 1 / 2) 1 (0, 0, 0) (0, 0, 0) 0 := by
  have hspec : specAugmentChain [[1, 0, 0]] 0 (fun _ => 1 / 2) 1 (0, 0, 0)
      (fun _ _ _ => 1) 0 = [[1.01, 0.01, 0.01]] := by
    unfold specAugmentChain
    rw [c5eval_dropout, c5eval_scale, c5eval_shift, c5eval_jitter, c5eval_rotate']
    rfl
  have hcode : objverse_augment [[1, 0, 0]] 0 (fun _ => 1 / 2) 1 (0, 0, 0)
      (0, 0, 0) 0 = [[1, 0, 0]] := by
    unfold objverse_augment
    rw [c5eval_dropout, c5eval_scale, c5eval_shift, c5eval_perturb, c5eval_rotate]
    rfl
  rw [hspec, hcode]
  intro h
  have h1 : (1.01 : ℝ) = 1 := by
    have := congrArg (fun l => ((l.getD 0 []).getD 0 0 : ℝ)) h
    simpa using this
  norm_num at h1

/-! ### C1: pc_normalize centers the cloud and scales the max radius to 1 -/

theorem listSum_map_sub (l : List α) (f g : α → ℝ) :
    (l.map (fun x => f x - g x)).sum = (l.map f).sum - (l.map g).sum := by
  induction l with
  | nil => simp
  | cons x xs ih => simp [ih]; ring

theorem listSum_map_div (l : List α) (f : α → ℝ) (m : ℝ) :
    (l.map (fun x => f x / m)).sum = (l.map f).sum / m := by
  induction l with
  | nil => simp
  | cons x xs ih => simp [ih, add_div]

theorem listSum_map_const (l : List α) (c : ℝ) :
    (l.map (fun _ => c)).sum = l.length * c := by
  induction l with
  | nil => simp
  | cons x xs ih => simp [ih]; ring

theorem le_foldl_max (l : List ℝ) : ∀ a : ℝ, a ≤ l.foldl max a := by
  induction l with
  | nil => intro a; simp
  | cons x xs ih => intro a; exact le_trans (le_max_left a x) (ih (max a x))

theorem mem_le_foldl_max (l : List ℝ) : ∀ (a b : ℝ), b ∈ l → b ≤ l.foldl max a := by
  induction l with
  | nil => intro a b h; simp at h
  | cons x xs ih =>
    intro a b h
    rcases List.mem_cons.mp h with rfl | h2
    · exact le_trans (le_max_right a b) (le_foldl_max xs (max a b))
    · exact ih (max a x) b h2

theorem le_listMax_of_mem {l : List ℝ} {b : ℝ} (h : b ∈ l) : b ≤ listMax l := by
  cases l with
  | nil => simp at h
  | cons x xs =>
    rcases List.mem_cons.mp h with rfl | h2
    · exact le_foldl_max xs b
    · exact mem_le_foldl_max xs x b h2

theorem foldl_max_div (l : List ℝ) (m : ℝ) (hm : 0 < m) :
    ∀ a : ℝ, (l.map (fun x => x / m)).foldl max (a / m) = l.foldl max a / m := by
  induction l with
  | nil => intro a; rfl
  | cons x xs ih =>
    intro a
    simp only [List.map_cons, List.foldl_cons]
    rw [max_div_div_right (le_of_lt hm), ih]

theorem listMax_map_div (l : List ℝ) (m : ℝ) (hm : 0 < m) :
    listMax (l.map (fun x => x / m)) = listMax l / m := by
  cases l with
  | nil => simp [listMax]
  | cons x xs => exact foldl_max_div xs m hm x

theorem rowSqNorm_nonneg (r : List ℝ) : 0 ≤ rowSqNorm r := by
  apply List.sum_nonneg
  intro x hx
  obtain ⟨y, _, rfl⟩ := List.mem_map.mp hx
  exact sq_nonneg y

theorem headD_length_of_rect (pc : List (List ℝ)) (C : ℕ)
    (hrect : ∀ r ∈ pc, r.length = C) (hne : pc ≠ []) :
    (pc.headD []).length = C := by
  cases pc with
  | nil => exact absurd rfl hne
  | cons p rest => exact hrect p (List.mem_cons_self p rest)

theorem colMean_length (pc : List (List ℝ)) :
    (colMean pc).length = (pc.headD []).length := by
  simp [colMean]

theorem getD_range_of_lt (n i : ℕ) (h : i < n) (d : ℕ) :
    (List.range n).getD i d = i := by
  rw [List.getD_eq_getElem _ _ (by simpa using h)]
  simp

theorem colMean_getD (pc : List (List ℝ)) (j : ℕ)
    (hj : j < (pc.headD []).length) :
    (colMean pc).getD j 0 = (pc.map (fun r => r.getD j 0)).sum / pc.length := by
  unfold colMean
  rw [getD_map_of_lt _ _ j (by simpa using hj) 0 0, getD_range_of_lt _ j hj 0]

theorem centered_length (pc : List (List ℝ)) : (centered pc).length = pc.length := by
  simp [centered]

theorem centered_row_length (pc : List (List ℝ)) (C : ℕ)
    (hrect : ∀ r ∈ pc, r.length = C) (hne : pc ≠ []) :
    ∀ s ∈ centered pc, s.length = C := by
  intro s hs
  obtain ⟨r, hr, rfl⟩ := List.mem_map.mp hs
  rw [List.length_zipWith, colMean_length, headD_length_of_rect pc C hrect hne,
    hrect r hr]
  exact min_self C

theorem pc_normalize_length (pc : List (List ℝ)) :
    (pc_normalize pc).length = pc.length := by
  simp [pc_normalize, centered]

theorem pc_normalize_row_length (pc : List (List ℝ)) (C : ℕ)
    (hrect : ∀ r ∈ pc, r.length = C) (hne : pc ≠ []) :
    ∀ s ∈ pc_normalize pc, s.length = C := by
  intro s hs
  obtain ⟨t, ht, rfl⟩ := List.mem_map.mp hs
  rw [List.length_map]
  exact centered_row_length pc C hrect hne t ht

theorem pc_normalize_colMean (pc : List (List ℝ)) (C : ℕ)
    (hrect : ∀ r ∈ pc, r.length = C) (hne : pc ≠ []) :
    colMean (pc_normalize pc) = List.replicate C 0 := by
  have hNne : (pc.length : ℝ) ≠ 0 := by
    have : pc.length ≠ 0 := fun h0 => hne (List.length_eq_zero.mp h0)
    exact_mod_cast this
  have hout_ne : pc_normalize pc ≠ [] := by
    intro h0
    have hl := congrArg List.length h0
    rw [pc_normalize_length] at hl
    exact hne (List.length_eq_zero.mp (by simpa using hl))
  have hhead_out : ((pc_normalize pc).headD []).length = C :=
    headD_length_of_rect _ C (pc_normalize_row_length pc C hrect hne) hout_ne
  rw [List.eq_replicate_iff]
  constructor
  · rw [colMean_length, hhead_out]
  · intro b hb
    rw [colMean] at hb
    obtain ⟨j, hjmem, rfl⟩ := List.mem_map.mp hb
    rw [List.mem_range, hhead_out] at hjmem
    show ((pc_normalize pc).map (fun r => r.getD j 0)).sum /
      ((pc_normalize pc).length : ℝ) = 0
    have hmap : (pc_normalize pc).map (fun r => r.getD j 0) =
        pc.map (fun r => (r.getD j 0 - (colMean pc).getD j 0) / normScale pc) := by
      rw [pc_normalize, centered, List.map_map, List.map_map]
      apply List.map_congr_left
      intro r hr
      simp only [Function.comp_apply]
      rw [getD_map_of_lt _ _ j
          (by
            rw [List.length_zipWith, colMean_length,
              headD_length_of_rect pc C hrect hne, hrect r hr]
            simpa using hjmem) 0 0,
        getD_zipWith_of_lt _ _ _ j (by rw [hrect r hr]; exact hjmem)
          (by rw [colMean_length, headD_length_of_rect pc C hrect hne]; exact hjmem)
          0 0 0]
    rw [hmap, listSum_map_div, listSum_map_sub, listSum_map_const,
      colMean_getD pc j (by rw [headD_length_of_rect pc C hrect hne]; exact hjmem)]
    have hz : (pc.map (fun r => r.getD j 0)).sum -
        (pc.length : ℝ) * ((pc.map (fun r => r.getD j 0)).sum / pc.length) = 0 := by
      field_simp
    rw [hz, zero_div, zero_div]

theorem rows_ne_exists_getD (l1 l2 : List ℝ) (C : ℕ) (h1 : l1.length = C)
    (h2 : l2.length = C) (hne : l1 ≠ l2) :
    ∃ j, j < C ∧ l1.getD j 0 ≠ l2.getD j 0 := by
  by_contra hc
  push_neg at hc
  apply hne
  apply List.ext_getElem (by rw [h1, h2])
  intro i hi1 hi2
  have hiC : i < C := by rw [← h1]; exact hi1
  have := hc i hiC
  rwa [List.getD_eq_getElem l1 0 hi1, List.getD_eq_getElem l2 0 hi2] at this

theorem normScale_pos (pc : List (List ℝ)) (C : ℕ)
    (hrect : ∀ r ∈ pc, r.length = C)
    (hdist : ∃ r1 ∈ pc, ∃ r2 ∈ pc, r1 ≠ r2) :
    0 < normScale pc := by
  obtain ⟨r1, hr1, r2, hr2, hne12⟩ := hdist
  have hne : pc ≠ [] := by
    intro h0
    rw [h0] at hr1
    simp at hr1
  have hcl : (colMean pc).length = C := by
    rw [colMean_length, headD_length_of_rect pc C hrect hne]
  have hs1l : (List.zipWith (fun a b => a - b) r1 (colMean pc)).length = C := by
    rw [List.length_zipWith, hrect r1 hr1, hcl, min_self]
  have hs2l : (List.zipWith (fun a b => a - b) r2 (colMean pc)).length = C := by
    rw [List.length_zipWith, hrect r2 hr2, hcl, min_self]
  have hsne : List.zipWith (fun a b => a - b) r1 (colMean pc) ≠
      List.zipWith (fun a b => a - b) r2 (colMean pc) := by
    intro heq
    apply hne12
    apply List.ext_getElem (by rw [hrect r1 hr1, hrect r2 hr2])
    intro i hi1 hi2
    have hiC : i < C := by rw [← hrect r1 hr1]; exact hi1
    have hgd := congrArg (fun l => l.getD i 0) heq
    simp only at hgd
    rw [getD_zipWith_of_lt _ _ _ i (by rw [hrect r1 hr1]; exact hiC)
        (by rw [hcl]; exact hiC) 0 0 0,
      getD_zipWith_of_lt _ _ _ i (by rw [hrect r2 hr2]; exact hiC)
        (by rw [hcl]; exact hiC) 0 0 0] at hgd
    have hri : r1.getD i 0 = r2.getD i 0 := by linarith
    rwa [List.getD_eq_getElem r1 0 hi1, List.getD_eq_getElem r2 0 hi2] at hri
  obtain ⟨j, hjC, hne_j⟩ := rows_ne_exists_getD _ _ C hs1l hs2l hsne
  have hpick : ∃ s, s ∈ centered pc ∧ s.getD j 0 ≠ 0 := by
    rcases eq_or_ne ((List.zipWith (fun a b => a - b) r1 (colMean pc)).getD j 0) 0 with
      h0 | h0
    · refine ⟨List.zipWith (fun a b => a - b) r2 (colMean pc),
        List.mem_map_of_mem _ hr2, ?_⟩
      intro h2
      exact hne_j (by rw [h0, h2])
    · exact ⟨List.zipWith (fun a b => a - b) r1 (colMean pc),
        List.mem_map_of_mem _ hr1, h0⟩
  obtain ⟨s, hs_mem, hs_j⟩ := hpick
  have hsl : s.length = C := centered_row_length pc C hrect hne s hs_mem
  have hsq_pos : 0 < rowSqNorm s := by
    have hmm : s.getD j 0 ∈ s := by
      rw [List.getD_eq_getElem s 0 (by rw [hsl]; exact hjC)]
      exact List.getElem_mem _
    have hmem : s.getD j 0 ^ 2 ∈ s.map (fun x => x ^ 2) :=
      List.mem_map_of_mem _ hmm
    have hle : s.getD j 0 ^ 2 ≤ rowSqNorm s :=
      List.single_le_sum
        (fun x hx => by obtain ⟨y, _, rfl⟩ := List.mem_map.mp hx; exact sq_nonneg y)
        _ hmem
    have hpos : 0 < s.getD j 0 ^ 2 :=
      lt_of_le_of_ne (sq_nonneg _) (Ne.symm (pow_ne_zero 2 hs_j))
    linarith
  have hsqrt_pos : 0 < Real.sqrt (rowSqNorm s) := Real.sqrt_pos.mpr hsq_pos
  exact lt_of_lt_of_le hsqrt_pos
    (le_listMax_of_mem (List.mem_map_of_mem _ hs_mem))

theorem pc_normalize_max (pc : List (List ℝ)) (hm : 0 < normScale pc) :
    listMax ((pc_normalize pc).map (fun r => Real.sqrt (rowSqNorm r))) = 1 := by
  have h1 : (pc_normalize pc).map (fun r => Real.sqrt (rowSqNorm r)) =
      ((centered pc).map (fun r => Real.sqrt (rowSqNorm r))).map
        (fun x => x / normScale pc) := by
    rw [pc_normalize, List.map_map, List.map_map]
    apply List.map_congr_left
    intro s _
    simp only [Function.comp_apply]
    have h2 : rowSqNorm (s.map (fun x => x / normScale pc)) =
        rowSqNorm s / normScale pc ^ 2 := by
      unfold rowSqNorm
      rw [List.map_map]
      have h3 : (fun x : ℝ => x ^ 2) ∘ (fun x : ℝ => x / normScale pc) =
          fun x : ℝ => x ^ 2 / normScale pc ^ 2 := by
        funext x
        simp [Function.comp, div_pow]
      rw [h3, listSum_map_div]
    rw [h2, Real.sqrt_div (rowSqNorm_nonneg s), Real.sqrt_sq hm.le]
  rw [h1, listMax_map_div _ _ hm]
  show normScale pc / normScale pc = 1
  exact div_self (ne_of_gt hm)

/-- C1: for every nonempty rectangular point cloud with at least two
distinct points (so the maximum distance from the centroid is nonzero),
`pc_normalize` returns a cloud whose coordinate-wise mean is the origin and
whose maximum Euclidean row norm is exactly 1. -/
theorem c1_pc_normalize_centroid_radius (pc : List (List ℝ)) (C : ℕ)
    (hrect : ∀ r ∈ pc, r.length = C) (hne : pc ≠ [])
    (hdist : ∃ r1 ∈ pc, ∃ r2 ∈ pc, r1 ≠ r2) :
    colMean (pc_normalize pc) = List.replicate C 0 ∧
      listMax ((pc_normalize pc).map (fun r => Real.sqrt (rowSqNorm r))) = 1 :=
  ⟨pc_normalize_colMean pc C hrect hne,
    pc_normalize_max pc (normScale_pos pc C hrect hdist)⟩

/-- C1 witness: the cloud `[[1, 0], [-1, 0]]` (already centered, radius 1)
satisfies the hypotheses and conclusions at `C = 2`. -/
theorem c1_witness :
    ((∀ r ∈ ([[1, 0], [-1, 0]] : List (List ℝ)), r.length = 2) ∧
        ([[1, 0], [-1, 0]] : List (List ℝ)) ≠ [] ∧
        (∃ r1 ∈ ([[1, 0], [-1, 0]] : List (List ℝ)),
          ∃ r2 ∈ ([[1, 0], [-1, 0]] : List (List ℝ)), r1 ≠ r2)) ∧
      (colMean (pc_normalize [[1, 0], [-1, 0]]) = List.replicate 2 0 ∧
        listMax ((pc_normalize [[1, 0], [-1, 0]]).map
          (fun r => Real.sqrt (rowSqNorm r))) = 1) :=
  ⟨⟨by simp, by simp, ⟨[1, 0], by simp, [-1, 0], by simp, by norm_num⟩⟩,
    c1_pc_normalize_centroid_radius [[1, 0], [-1, 0]] 2 (by simp) (by simp)
      ⟨[1, 0], by simp, [-1, 0], by simp, by norm_num⟩⟩

/-! ### C7: ModelNet retrieval mutates the cache, but idempotently -/

theorem list_eq_of_getD {l1 l2 : List α} (d : α) (hlen : l1.length = l2.length)
    (h : ∀ i, i < l1.length → l1.getD i d = l2.getD i d) : l1 = l2 := by
  apply List.ext_getElem hlen
  intro i hi1 hi2
  have := h i hi1
  rwa [List.getD_eq_getElem l1 d hi1, List.getD_eq_getElem l2 d hi2] at this

theorem zipWith_sub_replicate_zero (r : List ℝ) :
    List.zipWith (fun a b => a - b) r (List.replicate r.length 0) = r := by
  induction r with
  | nil => rfl
  | cons x xs ih => simp [List.replicate_succ, ih]

theorem pc_normalize_idem (pc : List (List ℝ)) (C : ℕ)
    (hrect : ∀ r ∈ pc, r.length = C) (hne : pc ≠ [])
    (hm : 0 < normScale pc) :
    pc_normalize (pc_normalize pc) = pc_normalize pc := by
  have hrect' := pc_normalize_row_length pc C hrect hne
  have hne' : pc_normalize pc ≠ [] := by
    intro h0
    have hl := congrArg List.length h0
    rw [pc_normalize_length] at hl
    exact hne (List.length_eq_zero.mp (by simpa using hl))
  have hcm : colMean (pc_normalize pc) = List.replicate C 0 :=
    pc_normalize_colMean pc C hrect hne
  have hcent : centered (pc_normalize pc) = pc_normalize pc := by
    unfold centered
    rw [hcm]
    have hstep : ∀ r ∈ pc_normalize pc,
        List.zipWith (fun a b => a - b) r (List.replicate C 0) = r := by
      intro r hr
      rw [← hrect' r hr]
      exact zipWith_sub_replicate_zero r
    calc (pc_normalize pc).map
          (fun r => List.zipWith (fun a b => a - b) r (List.replicate C 0)) =
        (pc_normalize pc).map id := List.map_congr_left hstep
      _ = pc_normalize pc := List.map_id _
  have hm1 : normScale (pc_normalize pc) = 1 := by
    unfold normScale
    rw [hcent]
    exact pc_normalize_max pc hm
  have hdef : pc_normalize (pc_normalize pc) =
      (centered (pc_normalize pc)).map
        (fun r => r.map (fun x => x / normScale (pc_normalize pc))) := rfl
  rw [hdef, hcent, hm1]
  calc (pc_normalize pc).map (fun r => r.map (fun x => x / 1)) =
      (pc_normalize pc).map id := by
        apply List.map_congr_left
        intro r _
        simp
    _ = pc_normalize pc := List.map_id _

theorem length_normalizeCols3 (ps : List (List ℝ)) :
    (normalizeCols3 ps).length = ps.length :=
  length_listMapIdx _ _

theorem getD_normalizeCols3 (ps : List (List ℝ)) (i : ℕ) (hi : i < ps.length) :
    (normalizeCols3 ps).getD i [] =
      (pc_normalize (ps.map (fun row => row.take 3))).getD i [] ++
        (ps.getD i []).drop 3 :=
  getD_listMapIdx _ _ i hi [] []

theorem pc_normalize_getD_length (pc : List (List ℝ)) (C : ℕ)
    (hrect : ∀ r ∈ pc, r.length = C) (hne : pc ≠ []) (i : ℕ) (hi : i < pc.length) :
    ((pc_normalize pc).getD i []).length = C := by
  have hmem : (pc_normalize pc).getD i [] ∈ pc_normalize pc := by
    rw [List.getD_eq_getElem _ _ (by rw [pc_normalize_length]; exact hi)]
    exact List.getElem_mem _
  exact pc_normalize_row_length pc C hrect hne _ hmem

theorem take_append_of_length_eq (l1 l2 : List α) (n : ℕ) (h : l1.length = n) :
    (l1 ++ l2).take n = l1 := by
  subst h
  exact List.take_left l1 l2

theorem drop_append_of_length_eq (l1 l2 : List α) (n : ℕ) (h : l1.length = n) :
    (l1 ++ l2).drop n = l2 := by
  subst h
  exact List.drop_left l1 l2

theorem normalizeCols3_map_take (ps : List (List ℝ))
    (hr3 : ∀ r ∈ ps.map (fun row => row.take 3), r.length = 3)
    (hne3 : ps.map (fun row => row.take 3) ≠ []) :
    (normalizeCols3 ps).map (fun r => r.take 3) =
      pc_normalize (ps.map (fun row => row.take 3)) := by
  apply list_eq_of_getD ([] : List ℝ)
  · rw [List.length_map, length_normalizeCols3, pc_normalize_length,
      List.length_map]
  · intro i hi
    rw [List.length_map, length_normalizeCols3] at hi
    rw [getD_map_of_lt _ _ i (by rw [length_normalizeCols3]; exact hi) [] [],
      getD_normalizeCols3 ps i hi]
    have hwl : ((pc_normalize (ps.map (fun row => row.take 3))).getD i []).length = 3 :=
      pc_normalize_getD_length _ 3 hr3 hne3 i (by rw [List.length_map]; exact hi)
    rw [take_append_of_length_eq _ _ 3 hwl]

theorem normalizeCols3_idem (ps : List (List ℝ))
    (hr3 : ∀ r ∈ ps.map (fun row => row.take 3), r.length = 3)
    (hne3 : ps.map (fun row => row.take 3) ≠ [])
    (hm : 0 < normScale (ps.map (fun row => row.take 3))) :
    normalizeCols3 (normalizeCols3 ps) = normalizeCols3 ps := by
  have htake : (normalizeCols3 ps).map (fun row => row.take 3) =
      pc_normalize (ps.map (fun row => row.take 3)) :=
    normalizeCols3_map_take ps hr3 hne3
  have hidem : pc_normalize (pc_normalize (ps.map (fun row => row.take 3))) =
      pc_normalize (ps.map (fun row => row.take 3)) :=
    pc_normalize_idem _ 3 hr3 hne3 hm
  apply list_eq_of_getD ([] : List ℝ)
  · rw [length_normalizeCols3]
  · intro i hi
    rw [length_normalizeCols3, length_normalizeCols3] at hi
    rw [getD_normalizeCols3 _ i (by rw [length_normalizeCols3]; exact hi),
      htake, hidem]
    have hvi : (normalizeCols3 ps).getD i [] =
        (pc_normalize (ps.map (fun row => row.take 3))).getD i [] ++
          (ps.getD i []).drop 3 :=
      getD_normalizeCols3 ps i hi
    have hwl : ((pc_normalize (ps.map (fun row => row.take 3))).getD i []).length = 3 :=
      pc_normalize_getD_length _ 3 hr3 hne3 i (by rw [List.length_map]; exact hi)
    rw [hvi]
    congr 1
    rw [drop_append_of_length_eq _ _ 3 hwl]

theorem getD_list_set_self (l : List α) (i : ℕ) (a d : α) (hi : i < l.length) :
    (l.set i a).getD i d = a := by
  rw [List.getD_eq_getElem _ _ (by rw [List.length_set]; exact hi)]
  exact List.getElem_set_self _

theorem get_item_else (st : ModelNetState) (index f : ℕ)
    (hfit : ¬ st.npoints < (st.list_of_points.getD index []).length) :
    ModelNet.get_item st index f =
      ({st with
          list_of_points :=
            st.list_of_points.set index (normalizeCols3 (st.list_of_points.getD index []))},
        postProcess st (normalizeCols3 (st.list_of_points.getD index [])),
        st.list_of_labels.getD index 0) := by
  simp only [ModelNet.get_item]
  rw [if_neg hfit]

/-- C7 (amended): `ModelNet._get_item` is not read-only — on the in-place
path (`npoints ≥` cached size) it overwrites the cached array with its
column-0..2-normalized version — but the overwrite is idempotent: calling
`_get_item` again on the resulting state at the same index leaves the state
unchanged and returns exactly the same point set and label as the first
call. -/
theorem c7_get_item_idempotent (st : ModelNetState) (index f1 f2 : ℕ)
    (hidx : index < st.list_of_points.length)
    (hfit : ¬ st.npoints < (st.list_of_points.getD index []).length)
    (hrect : ∀ r ∈ st.list_of_points.getD index [], 3 ≤ r.length)
    (hdist : ∃ r1 ∈ (st.list_of_points.getD index []).map (fun row => row.take 3),
      ∃ r2 ∈ (st.list_of_points.getD index []).map (fun row => row.take 3), r1 ≠ r2) :
    ModelNet.get_item (ModelNet.get_item st index f1).1 index f2 =
      ModelNet.get_item st index f1 := by
  have h1 := get_item_else st index f1 hfit
  have hr3 : ∀ r ∈ (st.list_of_points.getD index []).map (fun row => row.take 3),
      r.length = 3 := by
    intro r hr
    obtain ⟨row, hrow, rfl⟩ := List.mem_map.mp hr
    rw [List.length_take]
    exact min_eq_left (hrect row hrow)
  have hne3 : (st.list_of_points.getD index []).map (fun row => row.take 3) ≠ [] := by
    obtain ⟨r1, hr1, _⟩ := hdist
    intro h0
    rw [h0] at hr1
    simp at hr1
  have hm : 0 < normScale ((st.list_of_points.getD index []).map (fun row => row.take 3)) :=
    normScale_pos _ 3 hr3 hdist
  have hNv : normalizeCols3 (normalizeCols3 (st.list_of_points.getD index [])) =
      normalizeCols3 (st.list_of_points.getD index []) :=
    normalizeCols3_idem _ hr3 hne3 hm
  rw [h1]
  show ModelNet.get_item
      {st with
        list_of_points :=
          st.list_of_points.set index
            (normalizeCols3 (st.list_of_points.getD index []))} index f2 =
    ({st with
        list_of_points :=
          st.list_of_points.set index
            (normalizeCols3 (st.list_of_points.getD index []))},
      postProcess st (normalizeCols3 (st.list_of_points.getD index [])),
      st.list_of_labels.getD index 0)
  have hps1 : ({st with
      list_of_points :=
        st.list_of_points.set index
          (normalizeCols3 (st.list_of_points.getD index []))} :
      ModelNetState).list_of_points.getD index [] =
      normalizeCols3 (st.list_of_points.getD index []) :=
    getD_list_set_self _ index _ [] hidx
  have hfit2 : ¬ ({st with
      list_of_points :=
        st.list_of_points.set index
          (normalizeCols3 (st.list_of_points.getD index []))} :
      ModelNetState).npoints <
      (({st with
          list_of_points :=
            st.list_of_points.set index
              (normalizeCols3 (st.list_of_points.getD index []))} :
        ModelNetState).list_of_points.getD index []).length := by
    rw [hps1, length_normalizeCols3]
    exact hfit
  have h2 := get_item_else _ index f2 hfit2
  rw [h2, hps1, hNv]
  rw [List.set_set]
  rfl

theorem c7eval_colMean : colMean [[(2 : ℝ), 0, 0], [0, 0, 0]] = [1, 0, 0] := by
  unfold colMean
  norm_num [show (([[(2 : ℝ), 0, 0], [0, 0, 0]] : List (List ℝ)).headD []).length = 3
      from rfl,
    show List.range 3 = [0, 1, 2] from rfl]

theorem c7eval_centered :
    centered [[(2 : ℝ), 0, 0], [0, 0, 0]] = [[1, 0, 0], [-1, 0, 0]] := by
  unfold centered
  rw [c7eval_colMean]
  norm_num

theorem c7eval_normScale : normScale [[(2 : ℝ), 0, 0], [0, 0, 0]] = 1 := by
  unfold normScale
  rw [c7eval_centered]
  norm_num [rowSqNorm, listMax, Real.sqrt_one]

theorem c7eval_pc_normalize :
    pc_normalize [[(2 : ℝ), 0, 0], [0, 0, 0]] = [[1, 0, 0], [-1, 0, 0]] := by
  unfold pc_normalize
  rw [c7eval_centered, c7eval_normScale]
  norm_num

theorem c7eval_normalizeCols3 :
    normalizeCols3 [[(2 : ℝ), 0, 0], [0, 0, 0]] = [[1, 0, 0], [-1, 0, 0]] := by
  unfold normalizeCols3 listMapIdx
  simp only [listMapIdxAux]
  rw [show ([[(2 : ℝ), 0, 0], [0, 0, 0]] : List (List ℝ)).map (fun row => row.take 3) =
      [[2, 0, 0], [0, 0, 0]] from rfl]
  rw [c7eval_pc_normalize]
  norm_num

/-- C7 counterexample: on a cached cloud that is not yet normalized
(`[[2,0,0],[0,0,0]]`), one call to `_get_item` changes the stored
`list_of_points` — the retrieval is not read-only. -/
theorem c7_counterexample :
    (ModelNet.get_item mnExample 0 0).1.list_of_points ≠
      mnExample.list_of_points := by
  have heval : (ModelNet.get_item mnExample 0 0).1.list_of_points =
      [[[1, 0, 0], [-1, 0, 0]]] := by
    have h1 := get_item_else mnExample 0 0 (by
      show ¬ mnExample.npoints < (mnExample.list_of_points.getD 0 []).length
      norm_num [mnExample])
    rw [h1]
    show mnExample.list_of_points.set 0
        (normalizeCols3 (mnExample.list_of_points.getD 0 [])) =
      [[[1, 0, 0], [-1, 0, 0]]]
    rw [show mnExample.list_of_points = [[[2, 0, 0], [0, 0, 0]]] from rfl]
    rw [show ([[[(2 : ℝ), 0, 0], [0, 0, 0]]] : List (List (List ℝ))).getD 0 [] =
        [[2, 0, 0], [0, 0, 0]] from rfl]
    rw [c7eval_normalizeCols3]
    rfl
  rw [heval, show mnExample.list_of_points = [[[2, 0, 0], [0, 0, 0]]] from rfl]
  intro h
  have h2 := congrArg (fun l => ((l.getD 0 []).getD 0 []).getD 0 0) h
  simp only [List.getD_cons_zero] at h2
  norm_num at h2

/-- C7 witness: on the concrete state `mnExample`, a second retrieval of
index 0 reproduces the first retrieval exactly. -/
theorem c7_witness :
    (0 < mnExample.list_of_points.length ∧
        ¬ mnExample.npoints < (mnExample.list_of_points.getD 0 []).length ∧
        (∀ r ∈ mnExample.list_of_points.getD 0 [], 3 ≤ r.length) ∧
        (∃ r1 ∈ (mnExample.list_of_points.getD 0 []).map (fun row => row.take 3),
          ∃ r2 ∈ (mnExample.list_of_points.getD 0 []).map (fun row => row.take 3),
            r1 ≠ r2)) ∧
      ModelNet.get_item (ModelNet.get_item mnExample 0 0).1 0 0 =
        ModelNet.get_item mnExample 0 0 :=
  ⟨⟨by norm_num [mnExample], by norm_num [mnExample], by norm_num [mnExample],
      ⟨[2, 0, 0], by norm_num [mnExample], [0, 0, 0], by norm_num [mnExample],
        by norm_num⟩⟩,
    c7_get_item_idempotent mnExample 0 0 0 (by norm_num [mnExample])
      (by norm_num [mnExample]) (by norm_num [mnExample])
      ⟨[2, 0, 0], by norm_num [mnExample], [0, 0, 0], by norm_num [mnExample],
        by norm_num⟩⟩
